import Mathlib

/-!
# YAGO Shield (`crates/loader_ctl/src/assets/shield.c`)

A shallow embedding of the preload library that vetoes `unlink`, `unlinkat`,
`rename` and `renameat` on a fixed set of file names, and the properties of
its path classifier and of its four hooks.

Modelling conventions.

* A C string is the list of its characters, i.e. the bytes that precede the
  terminating NUL; a `const char *` argument is an `Option` of such a list,
  `none` being the null pointer.  `strlen` is the length of the list and
  `path + k` is `List.drop k`.
* `strcasecmp` is the one of the C/POSIX locale: only `A`..`Z` are folded.
* `size_t` and `int` values are never combined arithmetically in a way that
  can wrap (the one subtraction is guarded by `path_len >= protected_len`,
  the `- 1` by the short-circuit of `||`), so they are `Nat` and `Int`.
-/

namespace Shield

/-! ## Path classifier -/

/-- The content of a NUL-terminated C string. -/
abbrev CStr := List Char

/-- C `tolower` in the C locale. -/
def tolower (c : Char) : Char :=
  if 'A' ≤ c ∧ c ≤ 'Z' then Char.ofNat (c.toNat + 32) else c

/-- C `strcasecmp`: the difference of the first two characters that differ
after case folding, `0` when there is none; the end of a string reads as the
terminating NUL. -/
def strcasecmp : CStr → CStr → Int
  | [], [] => 0
  | [], b :: _ => 0 - ((tolower b).toNat : Int)
  | a :: _, [] => ((tolower a).toNat : Int)
  | a :: as, b :: bs =>
    if tolower a = tolower b then strcasecmp as bs
    else ((tolower a).toNat : Int) - ((tolower b).toNat : Int)

/-- The array `PROTECTED_FILES`, without its terminating `NULL`. -/
def PROTECTED_FILES : List CStr :=
  ["d3d11.dll".toList, "dxgi.dll".toList, "version.dll".toList, "d3dcompiler_47.dll".toList]

/-- The `for` loop of `is_protected`, started at the entries `names` that are
still to be visited. -/
def is_protected_loop (path : CStr) : List CStr → Int
  | [] => 0
  | name :: rest =>
    let path_len := path.length
    let protected_len := name.length
    if path_len ≥ protected_len then
      if strcasecmp (path.drop (path_len - protected_len)) name = 0 then
        if path_len = protected_len
            ∨ path[path_len - protected_len - 1]? = some '/'
            ∨ path[path_len - protected_len - 1]? = some '\\' then
          1
        else is_protected_loop path rest
      else is_protected_loop path rest
    else is_protected_loop path rest

/-- The function `is_protected`. -/
def is_protected : Option CStr → Int
  | none => 0
  | some path => is_protected_loop path PROTECTED_FILES

/-! ## Interposition layer -/

/-- A function address; `0` is `NULL`. -/
abbrev Ptr := Nat

/-- The four cells of the original entry point table. -/
inductive Entry
  | unlink
  | unlinkat
  | rename
  | renameat
  deriving DecidableEq

/-- The symbol name each cell is resolved with, which is also the operation
name printed by the hook. -/
def Entry.sym : Entry → String
  | .unlink => "unlink"
  | .unlinkat => "unlinkat"
  | .rename => "rename"
  | .renameat => "renameat"

/-- An argument list of one of the four operations, in the order of the C
prototype.  It describes both a call of a hook by the host process and a call
of an original implementation by a hook. -/
inductive Call
  | unlink (pathname : Option CStr)
  | unlinkat (dirfd : Int) (pathname : Option CStr) (flags : Int)
  | rename (oldpath newpath : Option CStr)
  | renameat (olddirfd : Int) (oldpath : Option CStr) (newdirfd : Int) (newpath : Option CStr)
  deriving DecidableEq

/-- What the library does to the outside: a `dlsym(RTLD_NEXT, name)` lookup, or
a call through a function pointer with an argument list. -/
inductive Event
  | dlsym (name : String)
  | call (f : Ptr) (c : Call)
  deriving DecidableEq

/-- The process around the library: the resolver, and what the code found at a
non-null address does to the filesystem `σ` and returns when it is called. -/
structure Env (σ : Type) where
  dlsym : String → Ptr
  invoke : Ptr → Call → σ → Int × σ

/-- The four static function pointers, the filesystem, the text written to
`stderr`, and the history of lookups and indirect calls. -/
structure State (σ : Type) where
  original_unlink : Ptr
  original_unlinkat : Ptr
  original_rename : Ptr
  original_renameat : Ptr
  fs : σ
  stderr : List Char
  trace : List Event
  deriving DecidableEq

/-- The state at load time: the four pointers are initialised to `NULL`. -/
def State.initial {σ : Type} (fs : σ) : State σ :=
  { original_unlink := 0, original_unlinkat := 0, original_rename := 0,
    original_renameat := 0, fs := fs, stderr := [], trace := [] }

/-- How a hook ends: it returns `rv`, or it has called through `NULL`. -/
inductive Outcome (σ : Type)
  | ret (rv : Int) (s : State σ)
  | fault (s : State σ)
  deriving DecidableEq

/-- What `%s` prints for a `char *` argument (glibc prints `(null)` for a null
pointer). -/
def fmt_s : Option CStr → CStr
  | some s => s
  | none => "(null)".toList

/-- A call `f(args)` through the function pointer `f`. -/
def callThrough {σ : Type} (env : Env σ) (s : State σ) (f : Ptr) (c : Call) : Outcome σ :=
  if f = 0 then
    .fault { s with trace := s.trace ++ [.call f c] }
  else
    let r := env.invoke f c s.fs
    .ret r.1 { s with fs := r.2, trace := s.trace ++ [.call f c] }

/-- The hook `unlink`. -/
def unlink {σ : Type} (env : Env σ) (s : State σ) (pathname : Option CStr) : Outcome σ :=
  if is_protected pathname ≠ 0 then
    .ret 0 { s with stderr := s.stderr
      ++ "[YAGO Shield] BLOCKED unlink of protected file: ".toList ++ fmt_s pathname ++ "\n".toList }
  else
    let s1 :=
      if s.original_unlink = 0 then
        { s with original_unlink := env.dlsym "unlink", trace := s.trace ++ [.dlsym "unlink"] }
      else s
    callThrough env s1 s1.original_unlink (.unlink pathname)

/-- The hook `unlinkat`. -/
def unlinkat {σ : Type} (env : Env σ) (s : State σ) (dirfd : Int) (pathname : Option CStr)
    (flags : Int) : Outcome σ :=
  if is_protected pathname ≠ 0 then
    .ret 0 { s with stderr := s.stderr
      ++ "[YAGO Shield] BLOCKED unlinkat of protected file: ".toList ++ fmt_s pathname
      ++ "\n".toList }
  else
    let s1 :=
      if s.original_unlinkat = 0 then
        { s with original_unlinkat := env.dlsym "unlinkat",
                 trace := s.trace ++ [.dlsym "unlinkat"] }
      else s
    callThrough env s1 s1.original_unlinkat (.unlinkat dirfd pathname flags)

/-- The hook `rename`. -/
def rename {σ : Type} (env : Env σ) (s : State σ) (oldpath newpath : Option CStr) : Outcome σ :=
  if is_protected oldpath ≠ 0 then
    .ret 0 { s with stderr := s.stderr
      ++ "[YAGO Shield] BLOCKED rename of protected file: ".toList ++ fmt_s oldpath
      ++ " -> ".toList ++ fmt_s newpath ++ "\n".toList }
  else
    let s1 :=
      if s.original_rename = 0 then
        { s with original_rename := env.dlsym "rename", trace := s.trace ++ [.dlsym "rename"] }
      else s
    callThrough env s1 s1.original_rename (.rename oldpath newpath)

/-- The hook `renameat`. -/
def renameat {σ : Type} (env : Env σ) (s : State σ) (olddirfd : Int) (oldpath : Option CStr)
    (newdirfd : Int) (newpath : Option CStr) : Outcome σ :=
  if is_protected oldpath ≠ 0 then
    .ret 0 { s with stderr := s.stderr
      ++ "[YAGO Shield] BLOCKED renameat of protected file: ".toList ++ fmt_s oldpath
      ++ " -> ".toList ++ fmt_s newpath ++ "\n".toList }
  else
    let s1 :=
      if s.original_renameat = 0 then
        { s with original_renameat := env.dlsym "renameat",
                 trace := s.trace ++ [.dlsym "renameat"] }
      else s
    callThrough env s1 s1.original_renameat (.renameat olddirfd oldpath newdirfd newpath)

/-- The constructor `shield_init`: four unconditional lookups. -/
def shield_init {σ : Type} (env : Env σ) (s : State σ) : State σ :=
  { s with
    original_unlink := env.dlsym "unlink"
    original_unlinkat := env.dlsym "unlinkat"
    original_rename := env.dlsym "rename"
    original_renameat := env.dlsym "renameat"
    trace := s.trace
      ++ [.dlsym "unlink", .dlsym "unlinkat", .dlsym "rename", .dlsym "renameat"] }

/-! ## Calls of the library by the host process -/

/-- The hook a call of the host process reaches, by the name it calls. -/
def hook {σ : Type} (env : Env σ) (s : State σ) : Call → Outcome σ
  | .unlink pathname => unlink env s pathname
  | .unlinkat dirfd pathname flags => unlinkat env s dirfd pathname flags
  | .rename oldpath newpath => rename env s oldpath newpath
  | .renameat olddirfd oldpath newdirfd newpath => renameat env s olddirfd oldpath newdirfd newpath

/-- The table cell a call belongs to. -/
def Call.entry : Call → Entry
  | .unlink _ => .unlink
  | .unlinkat _ _ _ => .unlinkat
  | .rename _ _ => .rename
  | .renameat _ _ _ _ => .renameat

/-- The source path of a call: `pathname`, or `oldpath`. -/
def Call.src : Call → Option CStr
  | .unlink pathname => pathname
  | .unlinkat _ pathname _ => pathname
  | .rename oldpath _ => oldpath
  | .renameat _ oldpath _ _ => oldpath

/-- The content of a table cell. -/
def State.get {σ : Type} (s : State σ) : Entry → Ptr
  | .unlink => s.original_unlink
  | .unlinkat => s.original_unlinkat
  | .rename => s.original_rename
  | .renameat => s.original_renameat

/-- The state an outcome ends in. -/
def Outcome.state {σ : Type} : Outcome σ → State σ
  | .ret _ s => s
  | .fault s => s

/-- An operation on the library: a call of a hook, or a run of `shield_init`. -/
inductive Op
  | hook (c : Call)
  | shield_init
  deriving DecidableEq

/-- One operation. -/
def step {σ : Type} (env : Env σ) (s : State σ) : Op → Outcome σ
  | .hook c => hook env s c
  | .shield_init => .ret 0 (shield_init env s)

/-- A sequence of operations, continued from the outcome of the operations
before it; a call through `NULL` ends the process, so nothing runs after a
fault. -/
def exec {σ : Type} (env : Env σ) : Outcome σ → List Op → Outcome σ
  | o, [] => o
  | o, op :: ops =>
    match o with
    | .ret _ s => exec env (step env s op) ops
    | .fault s => .fault s

/-- The process right after loading, before any operation. -/
def boot {σ : Type} (fs : σ) : Outcome σ := .ret 0 (State.initial fs)

/-! ## Statements of the specification -/

/-- A path separator, `/` or `\`. -/
def isSep (c : Char) : Bool := c == '/' || c == '\\'

/-- The text of `p` after its last separator, all of `p` when it has none. -/
def lastComponent (p : CStr) : CStr :=
  (p.reverse.takeWhile (fun c => !isSep c)).reverse

/-- Equality of two strings ignoring ASCII case. -/
def eqIgnoreCase (a b : CStr) : Prop := a.map tolower = b.map tolower

instance (a b : CStr) : Decidable (eqIgnoreCase a b) := by
  unfold eqIgnoreCase; infer_instance

/-- The indirect calls in a history. -/
def callsOf : List Event → List (Ptr × Call)
  | [] => []
  | .dlsym _ :: t => callsOf t
  | .call f c :: t => (f, c) :: callsOf t

/-- The lookups of `name` in a history. -/
def lookupsOf (name : String) : List Event → Nat
  | [] => 0
  | .dlsym n :: t => (if n = name then 1 else 0) + lookupsOf name t
  | .call _ _ :: t => lookupsOf name t

/-- A call was vetoed: it returned `0`, and no lookup and no indirect call was
made, and the filesystem and the table are as before. -/
def Vetoed {σ : Type} (s : State σ) (o : Outcome σ) : Prop :=
  ∃ s1, o = .ret 0 s1 ∧ s1.trace = s.trace ∧ s1.fs = s.fs
    ∧ ∀ e, s1.get e = s.get e

/-- A call was forwarded: the hook called through the pointer `f` with the
argument list `c`, once. -/
def Forwarded {σ : Type} (s : State σ) (o : Outcome σ) (f : Ptr) (c : Call) : Prop :=
  callsOf o.state.trace = callsOf s.trace ++ [(f, c)]

/-- The three nested tests of the loop body of `is_protected` for one name. -/
def matchesName (path name : CStr) : Prop :=
  name.length ≤ path.length
    ∧ strcasecmp (path.drop (path.length - name.length)) name = 0
    ∧ (path.length = name.length
        ∨ path[path.length - name.length - 1]? = some '/'
        ∨ path[path.length - name.length - 1]? = some '\\')

/-- Writing a table cell. -/
def State.set {σ : Type} (s : State σ) : Entry → Ptr → State σ
  | .unlink, f => { s with original_unlink := f }
  | .unlinkat, f => { s with original_unlinkat := f }
  | .rename, f => { s with original_rename := f }
  | .renameat, f => { s with original_renameat := f }

/-- The lazy check at the head of the forwarding path of every hook, for the
cell `e`: `if (!original_e) original_e = dlsym(RTLD_NEXT, "e");`. -/
def lazyResolve {σ : Type} (env : Env σ) (s : State σ) (e : Entry) : State σ :=
  if s.get e = 0 then
    { s.set e (env.dlsym e.sym) with trace := s.trace ++ [.dlsym e.sym] }
  else s

/-- The pointer a forwarded call goes through: the cell when it is non-null,
otherwise what the resolver returns. -/
def target {σ : Type} (env : Env σ) (s : State σ) (e : Entry) : Ptr :=
  if s.get e = 0 then env.dlsym e.sym else s.get e

/-- The path part of the diagnostic line: the source path, followed for the
renames by ` -> ` and the new path. -/
def blockedPaths : Call → CStr
  | .unlink pathname => fmt_s pathname
  | .unlinkat _ pathname _ => fmt_s pathname
  | .rename oldpath newpath => fmt_s oldpath ++ " -> ".toList ++ fmt_s newpath
  | .renameat _ oldpath _ newpath => fmt_s oldpath ++ " -> ".toList ++ fmt_s newpath

/-- The diagnostic line of a vetoed call, newline included. -/
def blockedLine (c : Call) : CStr :=
  "[YAGO Shield] BLOCKED ".toList ++ c.entry.sym.toList ++ " of protected file: ".toList
    ++ blockedPaths c ++ "\n".toList

/-- Every table cell is `NULL` or holds what the resolver returns for its
symbol. -/
def TableInv {σ : Type} (env : Env σ) (s : State σ) : Prop :=
  ∀ e, s.get e = 0 ∨ s.get e = env.dlsym e.sym

/-! ## A small concrete process, for closed instances -/

/-- A filesystem that is the list of the paths that exist. -/
abbrev DemoFs := List CStr

/-- A stand-in for the C library: `unlink` and `unlinkat` at addresses 4096
and 4097 remove an existing path, `rename` and `renameat` at 4098 and 4099
replace an existing path by the new one; each returns `-1` when the path is
missing. -/
def demoInvoke (f : Ptr) (c : Call) (fs : DemoFs) : Int × DemoFs :=
  match f, c with
  | 4096, .unlink (some p) => if p ∈ fs then (0, fs.erase p) else (-1, fs)
  | 4097, .unlinkat _ (some p) _ => if p ∈ fs then (0, fs.erase p) else (-1, fs)
  | 4098, .rename (some p) (some q) => if p ∈ fs then (0, q :: fs.erase p) else (-1, fs)
  | 4099, .renameat _ (some p) _ (some q) => if p ∈ fs then (0, q :: fs.erase p) else (-1, fs)
  | _, _ => (-1, fs)

/-- A process in which every symbol resolves. -/
def demoEnv : Env DemoFs where
  dlsym name :=
    if name = "unlink" then 4096 else if name = "unlinkat" then 4097
    else if name = "rename" then 4098 else if name = "renameat" then 4099 else 0
  invoke := demoInvoke

/-- A process in which no symbol resolves. -/
def brokenEnv : Env DemoFs where
  dlsym _ := 0
  invoke := demoInvoke

/-- A filesystem with one protected and one ordinary file. -/
def demoFs : DemoFs := ["/g/dxgi.dll".toList, "/g/save.dat".toList]

/-- A protected path of the demo filesystem. -/
def demoProtected : CStr := "/g/dxgi.dll".toList

/-- An ordinary path of the demo filesystem. -/
def demoPlain : CStr := "/g/save.dat".toList

/-! ## Lemmas on the classifier -/

theorem upper_range (c : Char) (h : 'A' ≤ c ∧ c ≤ 'Z') : 65 ≤ c.toNat ∧ c.toNat ≤ 90 := by
  obtain ⟨h1, h2⟩ := h
  have a : ('A' : Char).toNat ≤ c.toNat := h1
  have b : c.toNat ≤ ('Z' : Char).toNat := h2
  exact ⟨a, b⟩

theorem isSep_tolower (c : Char) : isSep (tolower c) = isSep c := by
  unfold tolower
  split
  · next h =>
    obtain ⟨h1, h2⟩ := upper_range c h
    have hc : c = Char.ofNat c.toNat := (Char.ofNat_toNat c).symm
    generalize c.toNat = n at *
    subst hc
    interval_cases n <;> decide
  · rfl

theorem toNat_sub_ne_zero (a b : Char) (h : a ≠ b) : (a.toNat : Int) - (b.toNat : Int) ≠ 0 := by
  intro h0
  apply h
  have e : a.toNat = b.toNat := by omega
  have e2 := congrArg Char.ofNat e
  simpa using e2

theorem strcasecmp_eq_zero_iff (a b : CStr) (h : a.length = b.length) :
    strcasecmp a b = 0 ↔ eqIgnoreCase a b := by
  induction a generalizing b with
  | nil =>
    cases b with
    | nil => simp [strcasecmp, eqIgnoreCase]
    | cons y ys => simp at h
  | cons x xs ih =>
    cases b with
    | nil => simp at h
    | cons y ys =>
      have hl : xs.length = ys.length := by simpa using h
      unfold strcasecmp
      by_cases hxy : tolower x = tolower y
      · rw [if_pos hxy, ih ys hl]
        simp [eqIgnoreCase, hxy]
      · rw [if_neg hxy]
        simp [eqIgnoreCase, hxy, toNat_sub_ne_zero _ _ hxy]

theorem is_protected_loop_cases (p : CStr) (names : List CStr) :
    is_protected_loop p names = 0 ∨ is_protected_loop p names = 1 := by
  induction names with
  | nil => left; rfl
  | cons n rest ih =>
    unfold is_protected_loop
    simp only []
    split_ifs <;> first | exact ih | (right; rfl)

theorem is_protected_loop_ne_zero_iff (p : CStr) (names : List CStr) :
    is_protected_loop p names ≠ 0 ↔ ∃ n ∈ names, matchesName p n := by
  induction names with
  | nil => simp [is_protected_loop]
  | cons n rest ih =>
    unfold is_protected_loop
    simp only [List.mem_cons, exists_eq_or_imp]
    by_cases h1 : p.length ≥ n.length
    · by_cases h2 : strcasecmp (p.drop (p.length - n.length)) n = 0
      · by_cases h3 : p.length = n.length
            ∨ p[p.length - n.length - 1]? = some '/'
            ∨ p[p.length - n.length - 1]? = some '\\'
        · simp only [if_pos h1, if_pos h2, if_pos h3]
          constructor
          · intro _; exact Or.inl ⟨h1, h2, h3⟩
          · intro _; decide
        · simp only [if_pos h1, if_pos h2, if_neg h3, ih]
          constructor
          · intro h; exact Or.inr h
          · rintro (⟨_, _, h⟩ | h)
            · exact absurd h h3
            · exact h
      · simp only [if_pos h1, if_neg h2, ih]
        constructor
        · intro h; exact Or.inr h
        · rintro (⟨_, h, _⟩ | h)
          · exact absurd h h2
          · exact h
    · simp only [if_neg h1, ih]
      constructor
      · intro h; exact Or.inr h
      · rintro (⟨h, _, _⟩ | h)
        · exact absurd h h1
        · exact h

theorem matchesName_iff (p n : CStr) :
    matchesName p n ↔ ∃ pre suf, p = pre ++ suf ∧ eqIgnoreCase suf n
      ∧ (p.length = n.length ∨ pre.getLast? = some '/' ∨ pre.getLast? = some '\\') := by
  constructor
  · rintro ⟨hlen, hcmp, hb⟩
    have hdl : (p.drop (p.length - n.length)).length = n.length := by
      rw [List.length_drop]; omega
    refine ⟨p.take (p.length - n.length), p.drop (p.length - n.length),
      (List.take_append_drop _ _).symm, (strcasecmp_eq_zero_iff _ _ hdl).1 hcmp, ?_⟩
    by_cases hk : p.length = n.length
    · exact Or.inl hk
    · right
      have hlast : (p.take (p.length - n.length)).getLast? = p[p.length - n.length - 1]? := by
        rw [List.getLast?_eq_getElem?, List.length_take, List.getElem?_take]
        have : min (p.length - n.length) p.length = p.length - n.length := by omega
        rw [this, if_pos (by omega)]
      rw [hlast]
      rcases hb with hb | hb
      · exact absurd hb hk
      · exact hb
  · rintro ⟨pre, suf, rfl, heq, hb⟩
    have hsl : suf.length = n.length := by
      have := congrArg List.length heq
      simpa using this
    have hk : (pre ++ suf).length - n.length = pre.length := by
      rw [List.length_append]; omega
    refine ⟨by rw [List.length_append]; omega, ?_, ?_⟩
    · rw [hk, List.drop_left]
      exact (strcasecmp_eq_zero_iff _ _ hsl).2 heq
    · rw [hk]
      by_cases hp : pre = []
      · left; subst hp; simpa using hsl
      · right
        have hpos : 0 < pre.length := List.length_pos.2 hp
        have hlast : pre.getLast? = (pre ++ suf)[pre.length - 1]? := by
          rw [List.getLast?_eq_getElem?, List.getElem?_append_left (by omega)]
        rw [← hlast]
        rcases hb with hb | hb
        · exfalso
          rw [List.length_append] at hb
          omega
        · exact hb

theorem takeWhile_append_all {α : Type} (q : α → Bool) (xs ys : List α)
    (h : ∀ c ∈ xs, q c = true) : (xs ++ ys).takeWhile q = xs ++ ys.takeWhile q := by
  induction xs with
  | nil => rfl
  | cons x xs ih =>
    have hx : q x = true := h x (List.mem_cons_self _ _)
    have hxs : ∀ c ∈ xs, q c = true := fun c hc => h c (List.mem_cons_of_mem _ hc)
    simp [List.takeWhile_cons, hx, ih hxs]

theorem lastComponent_append (pre suf : CStr) (hs : ∀ c ∈ suf, isSep c = false)
    (hp : pre = [] ∨ ∃ c, pre.getLast? = some c ∧ isSep c = true) :
    lastComponent (pre ++ suf) = suf := by
  unfold lastComponent
  rw [List.reverse_append, takeWhile_append_all]
  · have hnil : pre.reverse.takeWhile (fun c => !isSep c) = [] := by
      rcases hp with rfl | ⟨c, hc, hsep⟩
      · rfl
      · rw [← List.head?_reverse] at hc
        cases hr : pre.reverse with
        | nil => rfl
        | cons x xs =>
          rw [hr] at hc
          simp only [List.head?_cons, Option.some.injEq] at hc
          subst hc
          simp [List.takeWhile_cons, hsep]
    rw [hnil, List.append_nil, List.reverse_reverse]
  · intro c hc
    simp [hs c (List.mem_reverse.1 hc)]

theorem lastComponent_noSep (p : CStr) : ∀ c ∈ lastComponent p, isSep c = false := by
  intro c hc
  unfold lastComponent at hc
  have h := List.mem_takeWhile_imp (List.mem_reverse.1 hc)
  simpa using h

theorem lastComponent_decomp (p : CStr) :
    ∃ pre, p = pre ++ lastComponent p
      ∧ (pre = [] ∨ pre.getLast? = some '/' ∨ pre.getLast? = some '\\') := by
  refine ⟨(p.reverse.dropWhile (fun c => !isSep c)).reverse, ?_, ?_⟩
  · unfold lastComponent
    rw [← List.reverse_append, List.takeWhile_append_dropWhile, List.reverse_reverse]
  · rw [List.getLast?_reverse]
    have h := List.head?_dropWhile_not (fun c => !isSep c) p.reverse
    cases hd : p.reverse.dropWhile (fun c => !isSep c) with
    | nil => left; rfl
    | cons x xs =>
      right
      rw [hd] at h
      simp only [List.head?_cons, Bool.not_eq_false_eq_eq_true, Bool.not_eq_true,
        Bool.not_eq_eq_eq_not] at h
      have hx : isSep x = true := by simpa using h
      simp only [List.head?_cons, Option.some.injEq]
      simpa [isSep] using hx

theorem lastComponent_map_tolower (p : CStr) :
    (lastComponent p).map tolower = lastComponent (p.map tolower) := by
  unfold lastComponent
  rw [← List.map_reverse, List.map_reverse, List.takeWhile_map]
  have hq : ((fun c => !isSep c) ∘ tolower) = (fun c => !isSep c) := by
    funext c
    simp [Function.comp, isSep_tolower]
  rw [hq]

theorem names_noSep : ∀ n ∈ PROTECTED_FILES, ∀ c ∈ n, isSep (tolower c) = false := by
  decide

theorem names_ne_nil : ∀ n ∈ PROTECTED_FILES, n ≠ [] := by
  decide

theorem noSep_of_eqIgnoreCase (suf n : CStr) (hn : n ∈ PROTECTED_FILES)
    (h : eqIgnoreCase suf n) : ∀ c ∈ suf, isSep c = false := by
  intro c hc
  have hm : tolower c ∈ n.map tolower := by
    rw [← h]; exact List.mem_map_of_mem _ hc
  obtain ⟨d, hd, hdc⟩ := List.mem_map.1 hm
  have := names_noSep n hn d hd
  rw [hdc, isSep_tolower] at this
  exact this

theorem is_protected_ne_zero_iff (p : CStr) :
    is_protected (some p) ≠ 0 ↔ ∃ n ∈ PROTECTED_FILES, ∃ pre suf, p = pre ++ suf
      ∧ eqIgnoreCase suf n
      ∧ (p.length = n.length ∨ pre.getLast? = some '/' ∨ pre.getLast? = some '\\') := by
  show is_protected_loop p PROTECTED_FILES ≠ 0 ↔ _
  rw [is_protected_loop_ne_zero_iff]
  constructor
  · rintro ⟨n, hn, hm⟩
    exact ⟨n, hn, (matchesName_iff p n).1 hm⟩
  · rintro ⟨n, hn, hm⟩
    exact ⟨n, hn, (matchesName_iff p n).2 hm⟩

theorem is_protected_cases (p : Option CStr) : is_protected p = 0 ∨ is_protected p = 1 := by
  cases p with
  | none => left; rfl
  | some p => exact is_protected_loop_cases p PROTECTED_FILES

theorem is_protected_iff_lastComponent (p : CStr) :
    is_protected (some p) ≠ 0 ↔ ∃ n ∈ PROTECTED_FILES, eqIgnoreCase (lastComponent p) n := by
  rw [is_protected_ne_zero_iff]
  constructor
  · rintro ⟨n, hn, pre, suf, rfl, heq, hb⟩
    refine ⟨n, hn, ?_⟩
    have hsl : suf.length = n.length := by
      have := congrArg List.length heq
      simpa using this
    rw [lastComponent_append pre suf (noSep_of_eqIgnoreCase suf n hn heq)]
    · exact heq
    · rcases hb with hb | hb | hb
      · left
        rw [List.length_append] at hb
        exact List.length_eq_zero.1 (by omega)
      · exact Or.inr ⟨'/', hb, by decide⟩
      · exact Or.inr ⟨'\\', hb, by decide⟩
  · rintro ⟨n, hn, heq⟩
    obtain ⟨pre, hp, hb⟩ := lastComponent_decomp p
    refine ⟨n, hn, pre, lastComponent p, hp, heq, ?_⟩
    rcases hb with hb | hb
    · left
      have hsl : (lastComponent p).length = n.length := by
        have := congrArg List.length heq
        simpa using this
      rw [hb, List.nil_append] at hp
      rw [← hsl, ← hp]
    · exact Or.inr hb

/-! ## Lemmas on the hooks -/

theorem hook_eq {σ : Type} (env : Env σ) (s : State σ) (c : Call) :
    hook env s c =
      if is_protected c.src ≠ 0 then
        .ret 0 { s with stderr := s.stderr ++ blockedLine c }
      else
        callThrough env (lazyResolve env s c.entry) ((lazyResolve env s c.entry).get c.entry) c := by
  cases c <;>
    simp only [hook, unlink, unlinkat, rename, renameat, Call.src, Call.entry, lazyResolve,
      State.get, State.set, Entry.sym, blockedLine, blockedPaths] <;>
    split_ifs <;> first | rfl | simp [List.append_assoc]

theorem hook_veto {σ : Type} (env : Env σ) (s : State σ) (c : Call)
    (h : is_protected c.src ≠ 0) :
    hook env s c = .ret 0 { s with stderr := s.stderr ++ blockedLine c } := by
  rw [hook_eq, if_pos h]

theorem lazyResolve_get_self {σ : Type} (env : Env σ) (s : State σ) (e : Entry) :
    (lazyResolve env s e).get e = target env s e := by
  unfold lazyResolve target
  split_ifs
  · cases e <;> rfl
  · rfl

theorem lazyResolve_get_other {σ : Type} (env : Env σ) (s : State σ) (e e1 : Entry)
    (h : e1 ≠ e) : (lazyResolve env s e).get e1 = s.get e1 := by
  unfold lazyResolve
  split_ifs
  · cases e <;> cases e1 <;> first | rfl | exact absurd rfl h
  · rfl

theorem lazyResolve_fs {σ : Type} (env : Env σ) (s : State σ) (e : Entry) :
    (lazyResolve env s e).fs = s.fs := by
  unfold lazyResolve
  split_ifs
  · cases e <;> rfl
  · rfl

theorem lazyResolve_stderr {σ : Type} (env : Env σ) (s : State σ) (e : Entry) :
    (lazyResolve env s e).stderr = s.stderr := by
  unfold lazyResolve
  split_ifs
  · cases e <;> rfl
  · rfl

theorem lazyResolve_trace {σ : Type} (env : Env σ) (s : State σ) (e : Entry) :
    (lazyResolve env s e).trace = if s.get e = 0 then s.trace ++ [.dlsym e.sym] else s.trace := by
  unfold lazyResolve
  split_ifs
  · cases e <;> rfl
  · rfl

theorem hook_forward {σ : Type} (env : Env σ) (s : State σ) (c : Call)
    (h : is_protected c.src = 0) :
    hook env s c = callThrough env (lazyResolve env s c.entry) (target env s c.entry) c := by
  rw [hook_eq, if_neg (by simp [h]), lazyResolve_get_self]

theorem callThrough_trace {σ : Type} (env : Env σ) (s : State σ) (f : Ptr) (c : Call) :
    (callThrough env s f c).state.trace = s.trace ++ [.call f c] := by
  unfold callThrough
  split_ifs <;> rfl

theorem callThrough_get {σ : Type} (env : Env σ) (s : State σ) (f : Ptr) (c : Call)
    (e : Entry) : (callThrough env s f c).state.get e = s.get e := by
  unfold callThrough
  split_ifs <;> cases e <;> rfl

theorem callThrough_stderr {σ : Type} (env : Env σ) (s : State σ) (f : Ptr) (c : Call) :
    (callThrough env s f c).state.stderr = s.stderr := by
  unfold callThrough
  split_ifs <;> rfl

theorem callsOf_append (t u : List Event) : callsOf (t ++ u) = callsOf t ++ callsOf u := by
  induction t with
  | nil => rfl
  | cons ev t ih => cases ev <;> simp [callsOf, ih]

theorem lookupsOf_append (name : String) (t u : List Event) :
    lookupsOf name (t ++ u) = lookupsOf name t + lookupsOf name u := by
  induction t with
  | nil => simp [lookupsOf]
  | cons ev t ih => cases ev <;> simp [lookupsOf, ih, Nat.add_assoc]

theorem sym_injective (e e1 : Entry) (h : e.sym = e1.sym) : e = e1 := by
  cases e <;> cases e1 <;> first | rfl | exact absurd h (by decide)

theorem forward_calls {σ : Type} (env : Env σ) (s : State σ) (c : Call) :
    callsOf (callThrough env (lazyResolve env s c.entry) (target env s c.entry) c).state.trace
      = callsOf s.trace ++ [(target env s c.entry, c)] := by
  rw [callThrough_trace, callsOf_append, lazyResolve_trace]
  split_ifs <;> simp [callsOf, callsOf_append]

theorem not_vetoed_of_forwarded {σ : Type} (s : State σ) (o : Outcome σ) (f : Ptr) (c : Call)
    (h : Forwarded s o f c) : ¬ Vetoed s o := by
  rintro ⟨s1, rfl, ht, _⟩
  unfold Forwarded at h
  simp only [Outcome.state] at h
  rw [ht] at h
  have := congrArg List.length h
  simp at this

theorem hook_vetoed_iff {σ : Type} (env : Env σ) (s : State σ) (c : Call) :
    Vetoed s (hook env s c) ↔ is_protected c.src ≠ 0 := by
  constructor
  · intro hv hp
    have hf : Forwarded s (hook env s c) (target env s c.entry) c := by
      rw [hook_forward env s c hp]; exact forward_calls env s c
    exact not_vetoed_of_forwarded _ _ _ _ hf hv
  · intro hp
    rw [hook_veto env s c hp]
    exact ⟨_, rfl, rfl, rfl, fun e => by cases e <;> rfl⟩

theorem hook_forwarded_iff {σ : Type} (env : Env σ) (s : State σ) (c : Call) :
    Forwarded s (hook env s c) (target env s c.entry) c ↔ is_protected c.src = 0 := by
  constructor
  · intro hf
    by_contra hp
    exact not_vetoed_of_forwarded _ _ _ _ hf ((hook_vetoed_iff env s c).2 hp)
  · intro hp
    rw [hook_forward env s c hp]; exact forward_calls env s c

theorem step_tableInv {σ : Type} (env : Env σ) (s : State σ) (op : Op)
    (h : TableInv env s) : TableInv env (step env s op).state := by
  cases op with
  | shield_init =>
    intro e
    right
    cases e <;> rfl
  | hook c =>
    show TableInv env (hook env s c).state
    by_cases hp : is_protected c.src = 0
    · rw [hook_forward env s c hp]
      intro e
      rw [callThrough_get]
      by_cases he : e = c.entry
      · subst he
        rw [lazyResolve_get_self]
        unfold target
        split_ifs with h0
        · right; rfl
        · exact h _
      · rw [lazyResolve_get_other env s c.entry e he]
        exact h e
    · rw [hook_veto env s c hp]
      intro e
      have he := h e
      cases e <;> exact he

theorem exec_induct {σ : Type} (env : Env σ) (P : State σ → Prop)
    (hstep : ∀ s op, P s → P (step env s op).state) :
    ∀ (ops : List Op) (o : Outcome σ), P o.state → P (exec env o ops).state := by
  intro ops
  induction ops with
  | nil => intro o h; exact h
  | cons op ops ih =>
    intro o h
    cases o with
    | ret rv s => exact ih _ (hstep s op h)
    | fault s => exact h

theorem exec_hooks_induct {σ : Type} (env : Env σ) (P : State σ → Prop)
    (hstep : ∀ s c, P s → P (hook env s c).state) :
    ∀ (calls : List Call) (o : Outcome σ), P o.state →
      P (exec env o (calls.map Op.hook)).state := by
  intro calls
  induction calls with
  | nil => intro o h; exact h
  | cons c calls ih =>
    intro o h
    cases o with
    | ret rv s => exact ih _ (hstep s c h)
    | fault s => exact h

theorem reachable_tableInv {σ : Type} (env : Env σ) (fs0 : σ) (ops : List Op) :
    TableInv env (exec env (boot fs0) ops).state :=
  exec_induct env (TableInv env) (step_tableInv env) ops (boot fs0) (fun _ => Or.inl (by
    rename_i e; cases e <;> rfl))

theorem callThrough_ne_zero {σ : Type} (env : Env σ) (s : State σ) (f : Ptr) (c : Call)
    (hf : f ≠ 0) :
    callThrough env s f c = .ret (env.invoke f c s.fs).1
      { s with fs := (env.invoke f c s.fs).2, trace := s.trace ++ [.call f c] } := by
  simp [callThrough, hf]

theorem callThrough_fault_iff {σ : Type} (env : Env σ) (s : State σ) (f : Ptr) (c : Call) :
    (∃ s1, callThrough env s f c = .fault s1) ↔ f = 0 := by
  unfold callThrough
  split_ifs with h
  · exact ⟨fun _ => h, fun _ => ⟨_, rfl⟩⟩
  · constructor
    · rintro ⟨s1, h1⟩; exact absurd h1 (by simp)
    · intro h0; exact absurd h0 h

theorem target_eq_zero_iff {σ : Type} (env : Env σ) (s : State σ) (e : Entry) :
    target env s e = 0 ↔ s.get e = 0 ∧ env.dlsym e.sym = 0 := by
  unfold target
  split_ifs with h
  · simp [h]
  · simp [h]

theorem hook_resolve_once {σ : Type} (env : Env σ) (s : State σ) (c : Call) (e : Entry)
    (h : s.get e ≠ 0) :
    (hook env s c).state.get e = s.get e
      ∧ lookupsOf e.sym (hook env s c).state.trace = lookupsOf e.sym s.trace := by
  by_cases hp : is_protected c.src = 0
  · rw [hook_forward env s c hp, callThrough_get, callThrough_trace, lookupsOf_append,
      lazyResolve_trace]
    by_cases he : e = c.entry
    · subst he
      rw [lazyResolve_get_self, if_neg h]
      simp [target, h, lookupsOf]
    · rw [lazyResolve_get_other env s c.entry e he]
      have hs : ¬ c.entry.sym = e.sym := fun hs => he (sym_injective _ _ hs).symm
      split_ifs <;> simp [lookupsOf, lookupsOf_append, hs]
  · rw [hook_veto env s c hp]
    exact ⟨by cases e <;> rfl, rfl⟩

/-! ## The classifier: C1, C2, C10 -/

/-- C1: `PROTECTED_FILES` is the built-in list of four names, and for every
non-null path `p`, `is_protected p` is non-zero exactly when some name `n` of
the list is a suffix of `p` up to ASCII case (`p = pre ++ suf` with `suf` equal
to `n` ignoring case) and either `p` is as long as `n` or the character just
before the suffix is `/` or `\`. -/
theorem C1_is_protected_suffix_rule (p : CStr) :
    PROTECTED_FILES
        = ["d3d11.dll".toList, "dxgi.dll".toList, "version.dll".toList,
            "d3dcompiler_47.dll".toList]
      ∧ (is_protected (some p) ≠ 0 ↔
          ∃ n ∈ PROTECTED_FILES, ∃ pre suf, p = pre ++ suf ∧ eqIgnoreCase suf n
            ∧ (p.length = n.length ∨ pre.getLast? = some '/' ∨ pre.getLast? = some '\\')) :=
  ⟨rfl, is_protected_ne_zero_iff p⟩

/-- C2: `is_protected` is true on `/usr/lib/DXGI.DLL`, `dxgi.dll`,
`C:\Games\dxgi.dll`, `/lib/d3d11.dll` and `version.dll`, and false on
`foodxgi.dll` and on the null path. -/
theorem C2_documented_examples :
    is_protected (some "/usr/lib/DXGI.DLL".toList) ≠ 0
      ∧ is_protected (some "dxgi.dll".toList) ≠ 0
      ∧ is_protected (some "C:\\Games\\dxgi.dll".toList) ≠ 0
      ∧ is_protected (some "/lib/d3d11.dll".toList) ≠ 0
      ∧ is_protected (some "version.dll".toList) ≠ 0
      ∧ is_protected (some "foodxgi.dll".toList) = 0
      ∧ is_protected none = 0 := by
  refine ⟨?_, ?_, ?_, ?_, ?_, ?_, ?_⟩ <;> decide

/-- C10: `is_protected` depends only on the last path component: it is
non-zero exactly when the text after the last `/` or `\` equals a protected
name ignoring ASCII case; so it is non-zero on `d ++ "/" ++ n` for every prefix
`d` and protected name `n`, zero on every path that ends with a separator, and
equal on two paths that differ only in the ASCII case of their letters. -/
theorem C10_last_component_only :
    (∀ p : CStr, is_protected (some p) ≠ 0 ↔
        ∃ n ∈ PROTECTED_FILES, eqIgnoreCase (lastComponent p) n)
      ∧ (∀ d n : CStr, n ∈ PROTECTED_FILES → is_protected (some (d ++ "/".toList ++ n)) ≠ 0)
      ∧ (∀ p : CStr, (p.getLast? = some '/' ∨ p.getLast? = some '\\') →
          is_protected (some p) = 0)
      ∧ (∀ p q : CStr, eqIgnoreCase p q → is_protected (some p) = is_protected (some q)) := by
  refine ⟨is_protected_iff_lastComponent, ?_, ?_, ?_⟩
  · intro d n hn
    rw [is_protected_iff_lastComponent]
    refine ⟨n, hn, ?_⟩
    rw [lastComponent_append (d ++ "/".toList) n]
    · rfl
    · intro c hc
      have := names_noSep n hn c hc
      rwa [isSep_tolower] at this
    · exact Or.inr ⟨'/', by simp, by decide⟩
  · intro p hp
    by_contra hne
    obtain ⟨n, hn, heq⟩ := (is_protected_iff_lastComponent p).1 hne
    have hnil : lastComponent p = [] := by
      have hsplit : p = p ++ [] := (List.append_nil p).symm
      rw [hsplit]
      apply lastComponent_append
      · intro c hc; simp at hc
      · rcases hp with hp | hp
        · exact Or.inr ⟨'/', hp, by decide⟩
        · exact Or.inr ⟨'\\', hp, by decide⟩
    rw [hnil] at heq
    have hlen := congrArg List.length heq
    simp [eqIgnoreCase] at hlen
    exact names_ne_nil n hn (List.length_eq_zero.1 hlen.symm)
  · intro p q hpq
    have hiff : is_protected (some p) ≠ 0 ↔ is_protected (some q) ≠ 0 := by
      rw [is_protected_iff_lastComponent, is_protected_iff_lastComponent]
      have hl : (lastComponent p).map tolower = (lastComponent q).map tolower := by
        rw [lastComponent_map_tolower, lastComponent_map_tolower, hpq]
      unfold eqIgnoreCase
      rw [hl]
    rcases is_protected_cases (some p) with h1 | h1 <;>
      rcases is_protected_cases (some q) with h2 | h2
    · rw [h1, h2]
    · exact absurd h1 (hiff.2 (by rw [h2]; decide))
    · exact absurd h2 (hiff.1 (by rw [h1]; decide))
    · rw [h1, h2]

/-- C10 at concrete paths: `/opt/x/Version.DLL`, a path ending in `/`, and two
spellings of one path. -/
theorem C10_last_component_only_witness :
    is_protected (some ("/opt/x".toList ++ "/".toList ++ "version.dll".toList)) ≠ 0
      ∧ ("/g/dxgi.dll/".toList.getLast? = some '/' ∨ "/g/dxgi.dll/".toList.getLast? = some '\\')
      ∧ is_protected (some "/g/dxgi.dll/".toList) = 0
      ∧ eqIgnoreCase "/G/Dxgi.DLL".toList "/g/dxgi.dll".toList
      ∧ is_protected (some "/G/Dxgi.DLL".toList) = is_protected (some "/g/dxgi.dll".toList) :=
  ⟨C10_last_component_only.2.1 _ _ (by decide),
   Or.inl (by decide),
   C10_last_component_only.2.2.1 _ (Or.inl (by decide)),
   by decide,
   C10_last_component_only.2.2.2 _ _ (by decide)⟩

/-! ## The hooks: C3 to C9 -/

/-- C3: a call of any of the four hooks whose source path (`pathname`, or
`oldpath`) is classified protected returns `0` after neither a lookup nor an
indirect call, with the filesystem and the four table cells as before,
whatever `dirfd`, `flags` and `newpath` are. -/
theorem C3_protected_call_is_vetoed {σ : Type} (env : Env σ) (s : State σ) (c : Call)
    (h : is_protected c.src ≠ 0) :
    ∃ s1, hook env s c = .ret 0 s1 ∧ s1.fs = s.fs ∧ s1.trace = s.trace
      ∧ s1.original_unlink = s.original_unlink ∧ s1.original_unlinkat = s.original_unlinkat
      ∧ s1.original_rename = s.original_rename
      ∧ s1.original_renameat = s.original_renameat := by
  rw [hook_veto env s c h]
  exact ⟨_, rfl, rfl, rfl, rfl, rfl, rfl, rfl⟩

/-- C3 at `renameat(3, "/g/dxgi.dll", 4, NULL)` in the demo process. -/
theorem C3_protected_call_is_vetoed_witness :
    is_protected (Call.renameat 3 (some demoProtected) 4 none).src ≠ 0
      ∧ ∃ s1, hook demoEnv (State.initial demoFs) (.renameat 3 (some demoProtected) 4 none)
          = .ret 0 s1 ∧ s1.fs = demoFs ∧ s1.trace = []
        ∧ s1.original_unlink = 0 ∧ s1.original_unlinkat = 0
        ∧ s1.original_rename = 0 ∧ s1.original_renameat = 0 :=
  ⟨by decide,
   C3_protected_call_is_vetoed demoEnv (State.initial demoFs)
     (.renameat 3 (some demoProtected) 4 none) (by decide)⟩

/-- C4: in every state the library can reach from load time, a call of any of
the four hooks whose source path is not classified protected, when the
resolver yields the non-null address `real` for the hook's symbol, calls
through `real` exactly once, with the argument list of the caller, returns
what that call returns and leaves the filesystem it leaves; it writes nothing
to `stderr`. -/
theorem C4_unprotected_call_is_forwarded {σ : Type} (env : Env σ) (fs0 : σ) (ops : List Op)
    (rv0 : Int) (s : State σ) (c : Call) (real : Ptr)
    (hreach : exec env (boot fs0) ops = .ret rv0 s)
    (hnp : is_protected c.src = 0)
    (hreal : real ≠ 0) (hres : env.dlsym c.entry.sym = real) :
    ∃ s1, hook env s c = .ret (env.invoke real c s.fs).1 s1
      ∧ s1.fs = (env.invoke real c s.fs).2
      ∧ callsOf s1.trace = callsOf s.trace ++ [(real, c)]
      ∧ s1.stderr = s.stderr := by
  have hinv : TableInv env s := by
    have := reachable_tableInv env fs0 ops
    rwa [hreach] at this
  have ht : target env s c.entry = real := by
    unfold target
    split_ifs with h0
    · exact hres
    · rcases hinv c.entry with h1 | h1
      · exact absurd h1 h0
      · rw [h1, hres]
  have hcalls := forward_calls env s c
  rw [hook_forward env s c hnp, ht, callThrough_ne_zero env _ real c hreal, lazyResolve_fs]
  rw [ht, callThrough_ne_zero env _ real c hreal] at hcalls
  exact ⟨_, rfl, rfl, hcalls, lazyResolve_stderr env s c.entry⟩

/-- C4 at `unlinkat(-100, "/g/save.dat", 0)` right after load in the demo
process. -/
theorem C4_unprotected_call_is_forwarded_witness :
    exec demoEnv (boot demoFs) [] = .ret 0 (State.initial demoFs)
      ∧ is_protected (Call.unlinkat (-100) (some demoPlain) 0).src = 0
      ∧ (4097 : Ptr) ≠ 0
      ∧ demoEnv.dlsym (Call.unlinkat (-100) (some demoPlain) 0).entry.sym = 4097
      ∧ ∃ s1, hook demoEnv (State.initial demoFs) (.unlinkat (-100) (some demoPlain) 0)
          = .ret (demoEnv.invoke 4097 (.unlinkat (-100) (some demoPlain) 0)
              (State.initial demoFs).fs).1 s1
        ∧ s1.fs = (demoEnv.invoke 4097 (.unlinkat (-100) (some demoPlain) 0)
              (State.initial demoFs).fs).2
        ∧ callsOf s1.trace = callsOf (State.initial demoFs).trace
              ++ [(4097, .unlinkat (-100) (some demoPlain) 0)]
        ∧ s1.stderr = (State.initial demoFs).stderr :=
  ⟨rfl, by decide, by decide, by decide,
   C4_unprotected_call_is_forwarded demoEnv demoFs [] 0 (State.initial demoFs)
     (.unlinkat (-100) (some demoPlain) 0) 4097 rfl (by decide) (by decide) (by decide)⟩

/-- C5: for `rename` and `renameat` the veto depends on `oldpath` alone: a call
is vetoed with one `newpath` iff it is with any other, it is vetoed iff
`is_protected oldpath` is non-zero, and it is forwarded (with its own argument
list, through the pointer of its table cell) iff `is_protected oldpath` is
zero, whether `newpath` is protected, null or neither. -/
theorem C5_veto_depends_on_oldpath_only {σ : Type} (env : Env σ) (s : State σ)
    (oldpath newpath1 newpath2 : Option CStr) (olddirfd newdirfd : Int) :
    (Vetoed s (rename env s oldpath newpath1) ↔ Vetoed s (rename env s oldpath newpath2))
      ∧ (Vetoed s (rename env s oldpath newpath1) ↔ is_protected oldpath ≠ 0)
      ∧ (Forwarded s (rename env s oldpath newpath1) (target env s .rename)
            (.rename oldpath newpath1) ↔ is_protected oldpath = 0)
      ∧ (Vetoed s (renameat env s olddirfd oldpath newdirfd newpath1)
          ↔ Vetoed s (renameat env s olddirfd oldpath newdirfd newpath2))
      ∧ (Vetoed s (renameat env s olddirfd oldpath newdirfd newpath1)
          ↔ is_protected oldpath ≠ 0)
      ∧ (Forwarded s (renameat env s olddirfd oldpath newdirfd newpath1)
            (target env s .renameat) (.renameat olddirfd oldpath newdirfd newpath1)
          ↔ is_protected oldpath = 0) := by
  have r1 := hook_vetoed_iff env s (.rename oldpath newpath1)
  have r2 := hook_vetoed_iff env s (.rename oldpath newpath2)
  have r3 := hook_forwarded_iff env s (.rename oldpath newpath1)
  have a1 := hook_vetoed_iff env s (.renameat olddirfd oldpath newdirfd newpath1)
  have a2 := hook_vetoed_iff env s (.renameat olddirfd oldpath newdirfd newpath2)
  have a3 := hook_forwarded_iff env s (.renameat olddirfd oldpath newdirfd newpath1)
  exact ⟨r1.trans r2.symm, r1, r3, a1.trans a2.symm, a1, a3⟩

/-- C6: the null path and the empty path are classified not protected, and a
call of any of the four hooks with such a source path is not vetoed: it is
forwarded with its own argument list through the pointer of its table cell,
writes nothing to `stderr`, and, that pointer being non-null, returns what the
call through it returns and leaves the filesystem it leaves. -/
theorem C6_null_and_empty_are_forwarded {σ : Type} (env : Env σ) (s : State σ) (c : Call)
    (h : c.src = none ∨ c.src = some []) :
    is_protected none = 0 ∧ is_protected (some []) = 0
      ∧ ¬ Vetoed s (hook env s c)
      ∧ Forwarded s (hook env s c) (target env s c.entry) c
      ∧ (hook env s c).state.stderr = s.stderr
      ∧ (target env s c.entry ≠ 0 →
          ∃ s1, hook env s c = .ret (env.invoke (target env s c.entry) c s.fs).1 s1
            ∧ s1.fs = (env.invoke (target env s c.entry) c s.fs).2) := by
  have hnp : is_protected c.src = 0 := by
    rcases h with h | h <;> rw [h] <;> rfl
  have hf := (hook_forwarded_iff env s c).2 hnp
  refine ⟨rfl, rfl, not_vetoed_of_forwarded _ _ _ _ hf, hf, ?_, ?_⟩
  · rw [hook_forward env s c hnp, callThrough_stderr, lazyResolve_stderr]
  · intro ht
    rw [hook_forward env s c hnp, callThrough_ne_zero env _ _ c ht, lazyResolve_fs]
    exact ⟨_, rfl, rfl⟩

/-- C6 at `unlink(NULL)` right after load in the demo process. -/
theorem C6_null_and_empty_are_forwarded_witness :
    ((Call.unlink none).src = none ∨ (Call.unlink none).src = some [])
      ∧ ¬ Vetoed (State.initial demoFs) (hook demoEnv (State.initial demoFs) (.unlink none))
      ∧ Forwarded (State.initial demoFs) (hook demoEnv (State.initial demoFs) (.unlink none))
          (target demoEnv (State.initial demoFs) (Call.unlink none).entry) (.unlink none) :=
  ⟨Or.inl rfl,
   (C6_null_and_empty_are_forwarded demoEnv (State.initial demoFs) (.unlink none)
      (Or.inl rfl)).2.2.1,
   (C6_null_and_empty_are_forwarded demoEnv (State.initial demoFs) (.unlink none)
      (Or.inl rfl)).2.2.2.1⟩

/-- C7, refuted: right after load (`shield_init` has not run) in a process where
`dlsym` finds nothing, `unlink("/g/save.dat")` is not vetoed, stores the null
result of the lookup and calls through it. -/
theorem C7_counterexample :
    is_protected (Call.unlink (some demoPlain)).src = 0
      ∧ hook brokenEnv (State.initial demoFs) (.unlink (some demoPlain))
        = .fault { State.initial demoFs with
            trace := [.dlsym "unlink", .call 0 (.unlink (some demoPlain))] } := by
  decide

/-- C7, amended: a call that is not vetoed goes through the pointer of its
table cell when that is non-null and otherwise through what the resolver
returns; that address is non-null, and the call does not fault, exactly when
the cell is already resolved or the resolver finds the symbol (so a missing
run of `shield_init` alone never leads to a null call); when the cell is
unresolved and the resolver returns null, the hook calls through null. -/
theorem C7_null_call_iff_unresolvable {σ : Type} (env : Env σ) (s : State σ) (c : Call)
    (h : is_protected c.src = 0) :
    Forwarded s (hook env s c) (target env s c.entry) c
      ∧ (target env s c.entry ≠ 0 ↔ (s.get c.entry ≠ 0 ∨ env.dlsym c.entry.sym ≠ 0))
      ∧ ((∃ s1, hook env s c = .fault s1) ↔ (s.get c.entry = 0 ∧ env.dlsym c.entry.sym = 0)) := by
  refine ⟨(hook_forwarded_iff env s c).2 h, ?_, ?_⟩
  · rw [Ne, target_eq_zero_iff]
    constructor
    · intro hn
      by_contra hc
      push_neg at hc
      exact hn hc
    · rintro (h1 | h1) ⟨h2, h3⟩
      · exact h1 h2
      · exact h1 h3
  · rw [hook_forward env s c h, callThrough_fault_iff, target_eq_zero_iff]

/-- C7, amended, at `rename("/g/save.dat", "/g/dxgi.dll")` right after load in
the demo process, where the lazy lookup supplies the address. -/
theorem C7_null_call_iff_unresolvable_witness :
    is_protected (Call.rename (some demoPlain) (some demoProtected)).src = 0
      ∧ target demoEnv (State.initial demoFs)
          (Call.rename (some demoPlain) (some demoProtected)).entry ≠ 0
      ∧ Forwarded (State.initial demoFs)
          (hook demoEnv (State.initial demoFs) (.rename (some demoPlain) (some demoProtected)))
          (target demoEnv (State.initial demoFs)
            (Call.rename (some demoPlain) (some demoProtected)).entry)
          (.rename (some demoPlain) (some demoProtected)) :=
  ⟨by decide,
   (C7_null_call_iff_unresolvable demoEnv (State.initial demoFs)
      (.rename (some demoPlain) (some demoProtected)) (by decide)).2.1.2 (Or.inr (by decide)),
   (C7_null_call_iff_unresolvable demoEnv (State.initial demoFs)
      (.rename (some demoPlain) (some demoProtected)) (by decide)).1⟩

/-- C8, refuted: in the demo process the sequence `unlink("/g/save.dat")`,
`shield_init` resolves `original_unlink` to a non-null address with one lookup
of `unlink` in its first operation, and looks `unlink` up a second time in its
second. -/
theorem C8_counterexample :
    (exec demoEnv (boot demoFs) [.hook (.unlink (some demoPlain))]).state.get .unlink ≠ 0
      ∧ lookupsOf "unlink"
          (exec demoEnv (boot demoFs) [.hook (.unlink (some demoPlain))]).state.trace = 1
      ∧ lookupsOf "unlink"
          (exec demoEnv (boot demoFs)
            [.hook (.unlink (some demoPlain)), .shield_init]).state.trace = 2 := by
  decide

/-- C8, amended: in every sequence of calls of the four hooks, started in any
state, a table cell that is non-null keeps its value and is never looked up
again; a run of `shield_init` looks every one of the four symbols up once more
and stores what the resolver returns. -/
theorem C8_resolve_once_for_hooks {σ : Type} (env : Env σ) (s : State σ) (rv : Int)
    (calls : List Call) (e : Entry) (h : s.get e ≠ 0) :
    ((exec env (.ret rv s) (calls.map Op.hook)).state.get e = s.get e
        ∧ lookupsOf e.sym (exec env (.ret rv s) (calls.map Op.hook)).state.trace
          = lookupsOf e.sym s.trace)
      ∧ (∀ e1 : Entry, (shield_init env s).get e1 = env.dlsym e1.sym
          ∧ lookupsOf e1.sym (shield_init env s).trace = lookupsOf e1.sym s.trace + 1) := by
  constructor
  · have hP := exec_hooks_induct env
      (fun s1 => s1.get e = s.get e ∧ lookupsOf e.sym s1.trace = lookupsOf e.sym s.trace)
      (fun s1 c hs1 => by
        have hne : s1.get e ≠ 0 := by rw [hs1.1]; exact h
        obtain ⟨g1, g2⟩ := hook_resolve_once env s1 c e hne
        exact ⟨g1.trans hs1.1, g2.trans hs1.2⟩)
      calls (.ret rv s) ⟨rfl, rfl⟩
    exact hP
  · intro e1
    constructor
    · cases e1 <;> rfl
    · show lookupsOf e1.sym (s.trace ++ _) = _
      rw [lookupsOf_append]
      cases e1 <;> rfl

/-- C8, amended, in the demo process after `shield_init`: two more calls leave
`original_rename` alone. -/
theorem C8_resolve_once_for_hooks_witness :
    (shield_init demoEnv (State.initial demoFs)).get .rename ≠ 0
      ∧ (exec demoEnv (.ret 0 (shield_init demoEnv (State.initial demoFs)))
          ([Call.rename (some demoPlain) none, Call.unlink (some demoPlain)].map
            Op.hook)).state.get .rename
        = (shield_init demoEnv (State.initial demoFs)).get .rename :=
  ⟨by decide,
   (C8_resolve_once_for_hooks demoEnv (shield_init demoEnv (State.initial demoFs)) 0
      [Call.rename (some demoPlain) none, Call.unlink (some demoPlain)] .rename
      (by decide)).1.1⟩

/-- C9: with `stderr` as the text written so far, a vetoed call appends exactly
the line `[YAGO Shield] BLOCKED <op> of protected file: <paths>` and a newline,
where `<op>` is the name of the hook and `<paths>` is the source path for
`unlink` and `unlinkat` and `<old> -> <new>` for `rename` and `renameat`, the
paths being the arguments as passed; a call that is not vetoed appends
nothing. -/
theorem C9_diagnostic_line {σ : Type} (env : Env σ) (s : State σ) (c : Call)
    (p q : CStr) (dirfd flags : Int) :
    ((hook env s c).state.stderr
        = if is_protected c.src ≠ 0 then s.stderr ++ blockedLine c else s.stderr)
      ∧ blockedLine (.unlink (some p))
        = "[YAGO Shield] BLOCKED unlink of protected file: ".toList ++ p ++ ['\n']
      ∧ blockedLine (.unlinkat dirfd (some p) flags)
        = "[YAGO Shield] BLOCKED unlinkat of protected file: ".toList ++ p ++ ['\n']
      ∧ blockedLine (.rename (some p) (some q))
        = "[YAGO Shield] BLOCKED rename of protected file: ".toList ++ p ++ " -> ".toList
            ++ q ++ ['\n']
      ∧ blockedLine (.renameat dirfd (some p) flags (some q))
        = "[YAGO Shield] BLOCKED renameat of protected file: ".toList ++ p ++ " -> ".toList
            ++ q ++ ['\n'] := by
  refine ⟨?_, ?_, ?_, ?_, ?_⟩
  · split_ifs with hp
    · rw [hook_veto env s c hp]; rfl
    · have hnp : is_protected c.src = 0 := by
        by_contra h0; exact hp h0
      rw [hook_forward env s c hnp, callThrough_stderr, lazyResolve_stderr]
  all_goals simp [blockedLine, blockedPaths, Call.entry, Entry.sym, fmt_s]

end Shield
